import Mathlib

/-!
# BH1750FVI ambient-light sensor driver

A shallow embedding of `BH1750FVI.h` / `BH1750FVI.cpp`.

* `uint8_t` / `uint16_t` values are natural numbers; where the C++ code assigns to a
  narrower machine type the truncation is written out as `% 256` / `% 65536`.
  A `uint8_t` parameter ranges over `0..255`.
* The two `float` data members (`mtreg`, `hiResCoef`) and the `float` arithmetic of
  `getLightIntensity` are idealised as exact rational numbers.  The member `mtreg`
  being a `float` is what makes `MTREG_DEF_VALUE / mtreg` a real-valued division.
* The externally supplied bus (`USI_TWI &busI2C`) and the Arduino pin primitives are
  not part of the library; they are represented by the ordered traces of the calls the
  driver makes on them.  The bytes returned by the two `receive()` calls of
  `getLightIntensity` are inputs of the model.
* `BH1750_DEBUG` is not defined, so the `#if BH1750_DEBUG` blocks are compiled out.
-/

/-! ## Constants of `BH1750FVI.h` -/

/-- Device address when address pin LOW: default. -/
@[simp] def BH1750_I2CADDR_L : Nat := 0x23
/-- Device address when address pin HIGH. -/
@[simp] def BH1750_I2CADDR_H : Nat := 0x5C
/-- No active state. -/
@[simp] def BH1750_POWER_DOWN : Nat := 0x00
/-- Waiting for measurement command. -/
@[simp] def BH1750_POWER_ON : Nat := 0x01
/-- Reset data register value. -/
@[simp] def BH1750_RESET : Nat := 0x07
/-- Start measurement at 1lx resolution, continuously. -/
@[simp] def BH1750_CONTINUOUS_HIGH_RES_MODE : Nat := 0x10
/-- Start measurement at 0.5lx resolution, continuously. -/
@[simp] def BH1750_CONTINUOUS_HIGH_RES_MODE_2 : Nat := 0x11
/-- Start measurement at 4lx resolution, continuously. -/
@[simp] def BH1750_CONTINUOUS_LOW_RES_MODE : Nat := 0x13
/-- Start measurement at 1lx resolution, one time. -/
@[simp] def BH1750_ONE_TIME_HIGH_RES_MODE : Nat := 0x20
/-- Start measurement at 0.5lx resolution, one time. -/
@[simp] def BH1750_ONE_TIME_HIGH_RES_MODE_2 : Nat := 0x21
/-- Start measurement at 4lx resolution, one time. -/
@[simp] def BH1750_ONE_TIME_LOW_RES_MODE : Nat := 0x23
/-- Default measurement accuracy, the literal `1.2`. -/
@[simp] def LUX_ACC_COEF : ℚ := 12 / 10
/-- Default value for measurement time register. -/
@[simp] def MTREG_DEF_VALUE : Nat := 69

/-! ## Data model -/

/-- One call made by the driver on the referenced `USI_TWI` bus object. -/
inductive WireCall where
  | beginTransmission (addr : Nat)
  | send (data : Nat)
  | endTransmission
  | requestFrom (addr : Nat) (count : Nat)
  | receive
  deriving DecidableEq

/-- One call made by the driver on the Arduino pin primitives; `pinModeOutput p` is
`pinMode(p, OUTPUT)` and `digitalWrite p true` is `digitalWrite(p, HIGH)`. -/
inductive PinCall where
  | pinModeOutput (pin : Nat)
  | digitalWrite (pin : Nat) (high : Bool)
  deriving DecidableEq

/-- The private data members of `class BH1750FVI` (the bus reference apart). -/
structure BH1750FVI where
  address : Nat
  currentMode : Nat
  mtreg : ℚ
  hiResCoef : ℚ
  deriving DecidableEq

/-- A driver object together with what it has done so far to its surroundings: the calls
made on the bus it references and on the pin primitives, oldest first. -/
structure World where
  dev : BH1750FVI
  busI2C : List WireCall
  pins : List PinCall
  deriving DecidableEq

namespace BH1750FVI

/-! ## Operations of `BH1750FVI.cpp` -/

/-- The constructor `BH1750FVI::BH1750FVI(USI_TWI &bus)`, on a bus and pins on which
nothing has happened yet. -/
def new : World :=
  { dev := { address := BH1750_I2CADDR_L
             currentMode := BH1750_CONTINUOUS_HIGH_RES_MODE
             mtreg := MTREG_DEF_VALUE
             hiResCoef := 1 }
    busI2C := []
    pins := [] }

/-- The private `writeToBus(uint8_t DataToSend)`. -/
def writeToBus (DataToSend : Nat) (w : World) : World :=
  { w with busI2C := w.busI2C ++
      [WireCall.beginTransmission w.dev.address,
       WireCall.send DataToSend,
       WireCall.endTransmission] }

/-- The method `uint8_t getMode()`. -/
def getMode (w : World) : Nat := w.dev.currentMode

/-- The method `setMode(uint8_t mode)`: the `switch` with its six accepting cases. -/
def setMode (mode : Nat) (w : World) : World :=
  if mode = BH1750_CONTINUOUS_HIGH_RES_MODE ∨ mode = BH1750_CONTINUOUS_HIGH_RES_MODE_2 ∨
      mode = BH1750_CONTINUOUS_LOW_RES_MODE ∨ mode = BH1750_ONE_TIME_HIGH_RES_MODE ∨
      mode = BH1750_ONE_TIME_HIGH_RES_MODE_2 ∨ mode = BH1750_ONE_TIME_LOW_RES_MODE then
    let w1 := writeToBus mode w
    let w2 := { w1 with dev := { w1.dev with currentMode := mode } }
    if w2.dev.currentMode = BH1750_CONTINUOUS_HIGH_RES_MODE_2 ∨
        w2.dev.currentMode = BH1750_ONE_TIME_HIGH_RES_MODE_2 then
      { w2 with dev := { w2.dev with hiResCoef := 2 } }
    else
      { w2 with dev := { w2.dev with hiResCoef := 1 } }
  else
    w

/-- The method `powerOn()`. -/
def powerOn (w : World) : World :=
  setMode w.dev.currentMode (writeToBus BH1750_POWER_ON w)

/-- The method `sleep()`. -/
def sleep (w : World) : World :=
  writeToBus BH1750_POWER_DOWN w

/-- The method `reset()`. -/
def reset (w : World) : World :=
  writeToBus BH1750_RESET (writeToBus BH1750_POWER_ON w)

/-- The method `wakeUp()` without argument. -/
def wakeUp (w : World) : World :=
  setMode w.dev.currentMode w

/-- The overload `wakeUp(uint8_t mode)`. -/
def wakeUpMode (mode : Nat) (w : World) : World :=
  setMode mode w

/-- The method `uint8_t getMtreg()`: the `float` member converted to `uint8_t`, that is
truncated to its integer part and kept to eight bits. -/
def getMtreg (w : World) : Nat :=
  (Rat.floor w.dev.mtreg).toNat % 256

/-- The method `setMtreg(uint8_t mtreg)`. -/
def setMtreg (mtreg : Nat) (w : World) : World :=
  if mtreg < 31 ∨ mtreg > 254 then
    w
  else
    let w1 := { w with dev := { w.dev with mtreg := (mtreg : ℚ) } }
    let hByte := (((mtreg &&& 0xE0) >>> 5) ||| 0x40) % 256
    let lByte := ((mtreg &&& 0x1F) ||| 0x60) % 256
    writeToBus lByte (writeToBus hByte w1)

/-- The method `setAddress(uint8_t addPin, boolean add)`. -/
def setAddress (addPin : Nat) (add : Bool) (w : World) : World :=
  let w1 := { w with pins := w.pins ++ [PinCall.pinModeOutput addPin] }
  if add then
    { w1 with dev := { w1.dev with address := BH1750_I2CADDR_H }
              pins := w1.pins ++ [PinCall.digitalWrite addPin true] }
  else
    { w1 with dev := { w1.dev with address := BH1750_I2CADDR_L }
              pins := w1.pins ++ [PinCall.digitalWrite addPin false] }

/-- The method `uint8_t getAddress()`. -/
def getAddress (w : World) : Nat := w.dev.address

/-- The local `uint16_t intensityValue` of `getLightIntensity` once both bytes are in:
`b0` and `b1` are what the first and the second `receive()` returned. -/
def intensityValue (b0 b1 : Nat) : Nat :=
  let v := b0 % 65536
  let v := (v <<< 8) % 65536
  (v ||| b1) % 65536

/-- The method `float getLightIntensity()`; `b0` and `b1` are the bytes the two
`receive()` calls return.  Gives the returned lux value and the world afterwards. -/
def getLightIntensity (b0 b1 : Nat) (w : World) : ℚ × World :=
  let w1 := { w with busI2C := w.busI2C ++ [WireCall.requestFrom w.dev.address 2] }
  let w2 := { w1 with busI2C := w1.busI2C ++ [WireCall.receive] }
  let w3 := { w2 with busI2C := w2.busI2C ++ [WireCall.receive] }
  let luxValue : ℚ := (intensityValue b0 b1 : ℚ)
  let luxValue := (luxValue / LUX_ACC_COEF * ((MTREG_DEF_VALUE : ℚ) / w3.dev.mtreg)) /
    w3.dev.hiResCoef
  (luxValue, w3)

/-! ## Sequences of calls -/

/-- One call of a public member function of the class, with its arguments. -/
inductive Op where
  | powerOn
  | sleep
  | reset
  | wakeUp
  | wakeUpMode (mode : Nat)
  | getMtreg
  | setMtreg (mtreg : Nat)
  | getMode
  | setMode (mode : Nat)
  | setAddress (addPin : Nat) (add : Bool)
  | getAddress
  | getLightIntensity (b0 b1 : Nat)
  deriving DecidableEq

/-- The world after one call; the three getters only return a value. -/
def step (op : Op) (w : World) : World :=
  match op with
  | Op.powerOn => powerOn w
  | Op.sleep => sleep w
  | Op.reset => reset w
  | Op.wakeUp => wakeUp w
  | Op.wakeUpMode mode => wakeUpMode mode w
  | Op.getMtreg => w
  | Op.setMtreg mtreg => setMtreg mtreg w
  | Op.getMode => w
  | Op.setMode mode => setMode mode w
  | Op.setAddress addPin add => setAddress addPin add w
  | Op.getAddress => w
  | Op.getLightIntensity b0 b1 => (getLightIntensity b0 b1 w).2

/-- The world after a sequence of calls, made in the order of the list. -/
def run : List Op → World → World
  | [], w => w
  | op :: ops, w => run ops (step op w)

/-- A world is reachable when some sequence of calls leads to it from construction. -/
def Reachable (w : World) : Prop := ∃ ops : List Op, run ops new = w

/-- Whether a call is a call of `setAddress`. -/
def isSetAddress : Op → Bool
  | Op.setAddress _ _ => true
  | _ => false

/-- The properties of the data members that every call keeps: the address is one of the
two constants, the mode is one of the six opcodes, the coefficient goes with the mode, and
the register holds an integer of `[31,254]`. -/
def Inv (w : World) : Prop :=
  (w.dev.address = 0x23 ∨ w.dev.address = 0x5C) ∧
  w.dev.currentMode ∈ ([0x10, 0x11, 0x13, 0x20, 0x21, 0x23] : List Nat) ∧
  ((w.dev.currentMode = 0x11 ∨ w.dev.currentMode = 0x21) → w.dev.hiResCoef = 2) ∧
  (¬ (w.dev.currentMode = 0x11 ∨ w.dev.currentMode = 0x21) → w.dev.hiResCoef = 1) ∧
  ∃ n : Nat, 31 ≤ n ∧ n ≤ 254 ∧ w.dev.mtreg = (n : ℚ)

/-- A complete bus transfer: a write transmission of one data byte, or a read of two
bytes. -/
inductive Transfer where
  | write (data : Nat)
  | read2
  deriving DecidableEq

/-- The bus calls that make up one transfer with the device at address `a`. -/
def Transfer.calls (a : Nat) : Transfer → List WireCall
  | Transfer.write data =>
      [WireCall.beginTransmission a, WireCall.send data, WireCall.endTransmission]
  | Transfer.read2 => [WireCall.requestFrom a 2, WireCall.receive, WireCall.receive]

/-- The bus calls of a sequence of transfers, all with the device at address `a`. -/
def transfers (a : Nat) : List Transfer → List WireCall
  | [] => []
  | t :: ts => t.calls a ++ transfers a ts

/-! ## Auxiliary facts on the machine arithmetic -/

/-- The integer part of a rational that is a natural number is that number. -/
theorem floor_natCast_rat (v : Nat) : Rat.floor (v : ℚ) = (v : ℤ) := by
  rw [Rat.floor_def']
  simp

/-- The high byte of the register packing fits eight bits, so the assignment to `byte`
keeps it as computed. -/
theorem hByte_fits (v : Nat) :
    (((v &&& 0xE0) >>> 5) ||| 0x40) % 256 = 0x40 ||| ((v &&& 0xE0) >>> 5) := by
  have a1 : v &&& 0xE0 ≤ 0xE0 := Nat.and_le_right
  have a3 : (v &&& 0xE0) >>> 5 < 2 ^ 8 := by
    rw [Nat.shiftRight_eq_div_pow]
    omega
  rw [Nat.lor_comm, Nat.mod_eq_of_lt]
  exact Nat.or_lt_two_pow (by norm_num : (0x40 : Nat) < 2 ^ 8) a3

/-- The low byte of the register packing fits eight bits. -/
theorem lByte_fits (v : Nat) :
    ((v &&& 0x1F) ||| 0x60) % 256 = 0x60 ||| (v &&& 0x1F) := by
  have a2 : v &&& 0x1F ≤ 0x1F := Nat.and_le_right
  rw [Nat.lor_comm, Nat.mod_eq_of_lt]
  exact Nat.or_lt_two_pow (by norm_num : (0x60 : Nat) < 2 ^ 8) (by omega : v &&& 0x1F < 2 ^ 8)

/-- On a register value in range `setMtreg` takes its second branch. -/
theorem setMtreg_of_valid (w : World) (v : Nat) (h1 : 31 ≤ v) (h2 : v ≤ 254) :
    setMtreg v w =
      writeToBus (0x60 ||| (v &&& 0x1F)) (writeToBus (0x40 ||| ((v &&& 0xE0) >>> 5))
        { w with dev := { w.dev with mtreg := (v : ℚ) } }) := by
  have hr : ¬ (v < 31 ∨ v > 254) := by omega
  simp only [setMtreg, if_neg hr, hByte_fits, lByte_fits]

/-- Two received bytes are assembled big-endian. -/
theorem intensityValue_bytes (b0 b1 : Nat) (h0 : b0 < 256) (h1 : b1 < 256) :
    intensityValue b0 b1 = 256 * b0 + b1 := by
  have hb : b1 < 2 ^ 8 := by omega
  have hor := @Nat.mul_add_lt_is_or 8 b1 hb b0
  simp only [intensityValue]
  rw [Nat.mod_eq_of_lt (by omega : b0 < 65536), Nat.shiftLeft_eq,
    Nat.mod_eq_of_lt (by omega : b0 * 2 ^ 8 < 65536), Nat.mul_comm b0, ← hor]
  omega

/-- Every 16-bit count is what its two bytes assemble to. -/
theorem intensityValue_of_count (r : Nat) (hr : r ≤ 65535) :
    intensityValue (r / 256) (r % 256) = r := by
  rw [intensityValue_bytes (r / 256) (r % 256) (by omega) (by omega)]
  omega

/-- The value `getLightIntensity` returns, as an expression in the fields. -/
theorem getLightIntensity_fst (b0 b1 : Nat) (w : World) :
    (getLightIntensity b0 b1 w).1 =
      ((intensityValue b0 b1 : ℚ) / (12 / 10) * (69 / w.dev.mtreg)) / w.dev.hiResCoef := by
  simp [getLightIntensity]

/-- A no-op or not, `setMode` leaves the measurement-time register alone. -/
theorem setMode_mtreg (m : Nat) (w : World) : (setMode m w).dev.mtreg = w.dev.mtreg := by
  simp only [setMode]
  split_ifs <;> rfl

/-- The register after an accepted `setMtreg`, and the coefficient it leaves alone. -/
theorem setMtreg_valid_fields (w : World) (v : Nat) (h1 : 31 ≤ v) (h2 : v ≤ 254) :
    (setMtreg v w).dev.mtreg = (v : ℚ) ∧ (setMtreg v w).dev.hiResCoef = w.dev.hiResCoef := by
  rw [setMtreg_of_valid w v h1 h2]
  exact ⟨rfl, rfl⟩

/-! ## Mode selection -/

/-- C1: for every state and each of the six valid mode opcodes `m`, after `setMode(m)`
`getMode()` returns `m`, and the resolution coefficient is 2 exactly when `m` is `0x11` or
`0x21` and 1 for the other four opcodes. -/
theorem setMode_valid_getMode_coef (w : World) (m : Nat) (hm : m ∈ ([0x10, 0x11, 0x13, 0x20, 0x21, 0x23] : List Nat)) :
    getMode (setMode m w) = m ∧
    ((setMode m w).dev.hiResCoef = 2 ↔ (m = 0x11 ∨ m = 0x21)) ∧
    ((m = 0x10 ∨ m = 0x13 ∨ m = 0x20 ∨ m = 0x23) → (setMode m w).dev.hiResCoef = 1) := by
  simp only [List.mem_cons, List.mem_singleton, List.mem_nil_iff, or_false] at hm
  rcases hm with h | h | h | h | h | h <;> subst h <;>
    simp [setMode, getMode, writeToBus]

/-- C1 at mode `0x21` in the freshly constructed state. -/
theorem setMode_valid_getMode_coef_witness :
    0x21 ∈ ([0x10, 0x11, 0x13, 0x20, 0x21, 0x23] : List Nat) ∧
    getMode (setMode 0x21 new) = 0x21 ∧
    ((setMode 0x21 new).dev.hiResCoef = 2 ↔ ((0x21 : Nat) = 0x11 ∨ (0x21 : Nat) = 0x21)) ∧
    (((0x21 : Nat) = 0x10 ∨ (0x21 : Nat) = 0x13 ∨ (0x21 : Nat) = 0x20 ∨ (0x21 : Nat) = 0x23) →
      (setMode 0x21 new).dev.hiResCoef = 1) :=
  ⟨by decide, setMode_valid_getMode_coef new 0x21 (by decide)⟩

/-- C2: for every state and every 8-bit mode value outside the six valid opcodes,
`setMode` is a no-op: the whole world is as before, so `getMode()`, the coefficient, the
measurement-time register and the address are unchanged and nothing is sent on the bus. -/
theorem setMode_invalid_noop (w : World) (m : Nat) (_h8 : m < 256) (hm : m ∉ ([0x10, 0x11, 0x13, 0x20, 0x21, 0x23] : List Nat)) :
    setMode m w = w ∧
    getMode (setMode m w) = getMode w ∧
    (setMode m w).dev.hiResCoef = w.dev.hiResCoef ∧
    (setMode m w).dev.mtreg = w.dev.mtreg ∧
    (setMode m w).dev.address = w.dev.address ∧
    (setMode m w).busI2C = w.busI2C := by
  have hno : setMode m w = w := by
    simp only [List.mem_cons, List.mem_singleton, List.mem_nil_iff, or_false] at hm
    simp only [setMode, BH1750_CONTINUOUS_HIGH_RES_MODE, BH1750_CONTINUOUS_HIGH_RES_MODE_2,
      BH1750_CONTINUOUS_LOW_RES_MODE, BH1750_ONE_TIME_HIGH_RES_MODE,
      BH1750_ONE_TIME_HIGH_RES_MODE_2, BH1750_ONE_TIME_LOW_RES_MODE]
    rw [if_neg hm]
  rw [hno]
  exact ⟨rfl, rfl, rfl, rfl, rfl, rfl⟩

/-- C2 at the power-on opcode `0x01`, which is not a mode, after a mode change. -/
theorem setMode_invalid_noop_witness :
    (0x01 : Nat) < 256 ∧ 0x01 ∉ ([0x10, 0x11, 0x13, 0x20, 0x21, 0x23] : List Nat) ∧
    setMode 0x01 (setMode 0x11 new) = setMode 0x11 new ∧
    getMode (setMode 0x01 (setMode 0x11 new)) = getMode (setMode 0x11 new) ∧
    (setMode 0x01 (setMode 0x11 new)).dev.hiResCoef = (setMode 0x11 new).dev.hiResCoef ∧
    (setMode 0x01 (setMode 0x11 new)).dev.mtreg = (setMode 0x11 new).dev.mtreg ∧
    (setMode 0x01 (setMode 0x11 new)).dev.address = (setMode 0x11 new).dev.address ∧
    (setMode 0x01 (setMode 0x11 new)).busI2C = (setMode 0x11 new).busI2C :=
  ⟨by decide, by decide, setMode_invalid_noop (setMode 0x11 new) 0x01 (by decide) (by decide)⟩

/-! ## Measurement-time register -/

/-- C3: for every state and every `v` with `31 ≤ v ≤ 254`, after `setMtreg(v)` the call
`getMtreg()` returns exactly `v`. -/
theorem setMtreg_valid_getMtreg (w : World) (v : Nat) (h1 : 31 ≤ v) (h2 : v ≤ 254) :
    getMtreg (setMtreg v w) = v := by
  rw [setMtreg_of_valid w v h1 h2]
  simp only [getMtreg, writeToBus, floor_natCast_rat, Int.toNat_ofNat]
  omega

/-- C3 at both ends of the range, from the freshly constructed state. -/
theorem setMtreg_valid_getMtreg_witness :
    (31 ≤ 254 ∧ 254 ≤ 254 ∧ getMtreg (setMtreg 254 new) = 254) ∧
    (31 ≤ 31 ∧ 31 ≤ 254 ∧ getMtreg (setMtreg 31 new) = 31) :=
  ⟨⟨by decide, by decide, setMtreg_valid_getMtreg new 254 (by decide) (by decide)⟩,
   ⟨by decide, by decide, setMtreg_valid_getMtreg new 31 (by decide) (by decide)⟩⟩

/-- C4: for every state and every 8-bit value `v` outside `[31,254]` (`0..30` and `255`),
`setMtreg(v)` is a no-op: the whole world is as before, so the stored register and
`getMtreg()`, the mode, the coefficient and the address are unchanged and nothing is sent
on the bus. -/
theorem setMtreg_invalid_noop (w : World) (v : Nat) (_h8 : v < 256)
    (hv : v < 31 ∨ 254 < v) :
    setMtreg v w = w ∧
    (setMtreg v w).dev.mtreg = w.dev.mtreg ∧
    getMtreg (setMtreg v w) = getMtreg w ∧
    getMode (setMtreg v w) = getMode w ∧
    (setMtreg v w).dev.hiResCoef = w.dev.hiResCoef ∧
    getAddress (setMtreg v w) = getAddress w ∧
    (setMtreg v w).busI2C = w.busI2C := by
  have hno : setMtreg v w = w := by
    have hr : v < 31 ∨ v > 254 := hv
    simp only [setMtreg, if_pos hr]
  rw [hno]
  exact ⟨rfl, rfl, rfl, rfl, rfl, rfl, rfl⟩

/-- C4 at `255` after the register was set to `100`: the register stays `100`. -/
theorem setMtreg_invalid_noop_witness :
    ((255 : Nat) < 256 ∧ ((255 : Nat) < 31 ∨ 254 < (255 : Nat))) ∧
    setMtreg 255 (setMtreg 100 new) = setMtreg 100 new ∧
    (setMtreg 255 (setMtreg 100 new)).dev.mtreg = (setMtreg 100 new).dev.mtreg ∧
    getMtreg (setMtreg 255 (setMtreg 100 new)) = getMtreg (setMtreg 100 new) ∧
    getMode (setMtreg 255 (setMtreg 100 new)) = getMode (setMtreg 100 new) ∧
    (setMtreg 255 (setMtreg 100 new)).dev.hiResCoef = (setMtreg 100 new).dev.hiResCoef ∧
    getAddress (setMtreg 255 (setMtreg 100 new)) = getAddress (setMtreg 100 new) ∧
    (setMtreg 255 (setMtreg 100 new)).busI2C = (setMtreg 100 new).busI2C :=
  ⟨by decide, setMtreg_invalid_noop (setMtreg 100 new) 255 (by decide) (by decide)⟩

/-- C5: for every `v` with `31 ≤ v ≤ 254`, `setMtreg(v)` adds to the bus exactly two
one-byte writes to the current address, first the high byte `0x40 | ((v & 0xE0) >> 5)`,
then the low byte `0x60 | (v & 0x1F)`; `setMtreg(100)` sends `0x43` and then `0x64`. -/
theorem setMtreg_valid_transmits (w : World) (v : Nat) (h1 : 31 ≤ v) (h2 : v ≤ 254) :
    (setMtreg v w).busI2C = w.busI2C ++
      [WireCall.beginTransmission (getAddress w),
       WireCall.send (0x40 ||| ((v &&& 0xE0) >>> 5)),
       WireCall.endTransmission,
       WireCall.beginTransmission (getAddress w),
       WireCall.send (0x60 ||| (v &&& 0x1F)),
       WireCall.endTransmission] ∧
    (setMtreg 100 w).busI2C = w.busI2C ++
      [WireCall.beginTransmission (getAddress w), WireCall.send 0x43,
       WireCall.endTransmission,
       WireCall.beginTransmission (getAddress w), WireCall.send 0x64,
       WireCall.endTransmission] := by
  constructor
  · rw [setMtreg_of_valid w v h1 h2]
    simp [writeToBus, getAddress]
  · rw [setMtreg_of_valid w 100 (by decide) (by decide)]
    simp only [writeToBus, getAddress, List.append_assoc, List.cons_append, List.nil_append]
    rfl

/-- C5 at `v = 69`, the default register value, whose bytes are `0x42` and `0x65`. -/
theorem setMtreg_valid_transmits_witness :
    (31 ≤ 69 ∧ 69 ≤ 254) ∧
    (setMtreg 69 new).busI2C = new.busI2C ++
      [WireCall.beginTransmission (getAddress new),
       WireCall.send (0x40 ||| ((69 &&& 0xE0) >>> 5)),
       WireCall.endTransmission,
       WireCall.beginTransmission (getAddress new),
       WireCall.send (0x60 ||| (69 &&& 0x1F)),
       WireCall.endTransmission] ∧
    (setMtreg 100 new).busI2C = new.busI2C ++
      [WireCall.beginTransmission (getAddress new), WireCall.send 0x43,
       WireCall.endTransmission,
       WireCall.beginTransmission (getAddress new), WireCall.send 0x64,
       WireCall.endTransmission] :=
  ⟨by decide, setMtreg_valid_transmits new 69 (by decide) (by decide)⟩

/-! ## Illuminance read-out -/

/-- C6: for every raw 16-bit count `r`, every stored register value `t` in `[31,254]` and
coefficient `c` in `{1, 2}`, `getLightIntensity()` returns, over exact rationals,
`(r / 1.2) * (69 / t) / c`; with `r = 256`, `t = 69` and `c = 1` that is `640/3`. -/
theorem getLightIntensity_formula (w : World) (r t : Nat) (c : ℚ) (hr : r ≤ 65535)
    (_ht1 : 31 ≤ t) (_ht2 : t ≤ 254) (hm : w.dev.mtreg = (t : ℚ))
    (_hc : c = 1 ∨ c = 2) (hw : w.dev.hiResCoef = c) :
    (getLightIntensity (r / 256) (r % 256) w).1 = ((r : ℚ) / (12 / 10)) * (69 / (t : ℚ)) / c ∧
    (r = 256 → t = 69 → c = 1 →
      (getLightIntensity (r / 256) (r % 256) w).1 = 640 / 3) := by
  have hmain : (getLightIntensity (r / 256) (r % 256) w).1 =
      ((r : ℚ) / (12 / 10)) * (69 / (t : ℚ)) / c := by
    rw [getLightIntensity_fst, intensityValue_of_count r hr, hm, hw]
  refine ⟨hmain, ?_⟩
  intro h256 h69 h1
  rw [hmain, h256, h69, h1]
  norm_num

/-- C6 in the freshly constructed state (register 69, coefficient 1) at raw count 256. -/
theorem getLightIntensity_formula_witness :
    (256 ≤ 65535 ∧ 31 ≤ 69 ∧ 69 ≤ 254 ∧ new.dev.mtreg = ((69 : Nat) : ℚ) ∧
      ((1 : ℚ) = 1 ∨ (1 : ℚ) = 2) ∧ new.dev.hiResCoef = 1) ∧
    (getLightIntensity (256 / 256) (256 % 256) new).1 =
      (((256 : Nat) : ℚ) / (12 / 10)) * (69 / ((69 : Nat) : ℚ)) / 1 ∧
    (256 = 256 → 69 = 69 → (1 : ℚ) = 1 →
      (getLightIntensity (256 / 256) (256 % 256) new).1 = 640 / 3) :=
  ⟨⟨by decide, by decide, by decide, rfl, Or.inl rfl, rfl⟩,
   getLightIntensity_formula new 256 69 1 (by decide) (by decide) (by decide) rfl
     (Or.inl rfl) rfl⟩

/-- C7: for every raw count `r` and register value `t` in `[31,254]`, what
`getLightIntensity()` returns after `setMode(0x11)` or `setMode(0x21)` is exactly half of
what it returns for the same `r` and `t` after `setMode` of any of `0x10`, `0x13`, `0x20`,
`0x23`; with `r = 256` and `t = 69` the halved value is `320/3`. -/
theorem getLightIntensity_mode2_half (w : World) (r t m2 m1 : Nat) (hr : r ≤ 65535)
    (_ht1 : 31 ≤ t) (_ht2 : t ≤ 254) (hm : w.dev.mtreg = (t : ℚ))
    (h2 : m2 ∈ ([0x11, 0x21] : List Nat)) (h1 : m1 ∈ ([0x10, 0x13, 0x20, 0x23] : List Nat)) :
    (getLightIntensity (r / 256) (r % 256) (setMode m2 w)).1 =
      (getLightIntensity (r / 256) (r % 256) (setMode m1 w)).1 / 2 ∧
    (r = 256 → t = 69 →
      (getLightIntensity (r / 256) (r % 256) (setMode m2 w)).1 = 320 / 3) := by
  have hc2 : (setMode m2 w).dev.hiResCoef = 2 := by
    simp only [List.mem_cons, List.mem_singleton, List.mem_nil_iff, or_false] at h2
    rcases h2 with h | h <;> subst h <;> simp [setMode, writeToBus]
  have hc1 : (setMode m1 w).dev.hiResCoef = 1 := by
    simp only [List.mem_cons, List.mem_singleton, List.mem_nil_iff, or_false] at h1
    rcases h1 with h | h | h | h <;> subst h <;> simp [setMode, writeToBus]
  rw [getLightIntensity_fst, getLightIntensity_fst, setMode_mtreg, setMode_mtreg, hc2, hc1,
    intensityValue_of_count r hr, hm]
  refine ⟨by ring, ?_⟩
  intro h256 h69
  rw [h256, h69]
  norm_num

/-- C7 from the freshly constructed state at raw count 256, modes `0x21` against `0x13`. -/
theorem getLightIntensity_mode2_half_witness :
    (256 ≤ 65535 ∧ 31 ≤ 69 ∧ 69 ≤ 254 ∧ new.dev.mtreg = ((69 : Nat) : ℚ) ∧
      0x21 ∈ ([0x11, 0x21] : List Nat) ∧ 0x13 ∈ ([0x10, 0x13, 0x20, 0x23] : List Nat)) ∧
    (getLightIntensity (256 / 256) (256 % 256) (setMode 0x21 new)).1 =
      (getLightIntensity (256 / 256) (256 % 256) (setMode 0x13 new)).1 / 2 ∧
    (256 = 256 → 69 = 69 →
      (getLightIntensity (256 / 256) (256 % 256) (setMode 0x21 new)).1 = 320 / 3) :=
  ⟨⟨by decide, by decide, by decide, rfl, by decide, by decide⟩,
   getLightIntensity_mode2_half new 256 69 0x21 0x13 (by decide) (by decide) (by decide) rfl
     (by decide) (by decide)⟩

/-- C8: the factor `69 / mtreg` of `getLightIntensity()` is a non-truncating division:
for every raw count `r`, coefficient and register value `t` in `[31,254]`,
`lux(t) * t = lux(69) * 69` over exact rationals.  For `t = 138` the result is exactly half
of the one for `t = 69` and, for `r > 0` and a coefficient of 1 or 2, not 0; for `t = 31`
it is `69/31` times the one for `t = 69`, and then not 2 times it. -/
theorem getLightIntensity_mtreg_scaling (w : World) (r t : Nat) (hr : r ≤ 65535)
    (ht1 : 31 ≤ t) (ht2 : t ≤ 254) :
    (getLightIntensity (r / 256) (r % 256) (setMtreg t w)).1 * (t : ℚ) =
      (getLightIntensity (r / 256) (r % 256) (setMtreg 69 w)).1 * 69 ∧
    (getLightIntensity (r / 256) (r % 256) (setMtreg 138 w)).1 =
      (getLightIntensity (r / 256) (r % 256) (setMtreg 69 w)).1 / 2 ∧
    (getLightIntensity (r / 256) (r % 256) (setMtreg 31 w)).1 =
      (69 / 31) * (getLightIntensity (r / 256) (r % 256) (setMtreg 69 w)).1 ∧
    (0 < r → (w.dev.hiResCoef = 1 ∨ w.dev.hiResCoef = 2) →
      (getLightIntensity (r / 256) (r % 256) (setMtreg 138 w)).1 ≠ 0 ∧
      (getLightIntensity (r / 256) (r % 256) (setMtreg 31 w)).1 ≠
        2 * (getLightIntensity (r / 256) (r % 256) (setMtreg 69 w)).1) := by
  have ht : (t : ℚ) ≠ 0 := by
    have : 0 < t := by omega
    exact_mod_cast this.ne'
  obtain ⟨mt, ct⟩ := setMtreg_valid_fields w t ht1 ht2
  obtain ⟨m69, c69⟩ := setMtreg_valid_fields w 69 (by decide) (by decide)
  obtain ⟨m138, c138⟩ := setMtreg_valid_fields w 138 (by decide) (by decide)
  obtain ⟨m31, c31⟩ := setMtreg_valid_fields w 31 (by decide) (by decide)
  simp only [getLightIntensity_fst, intensityValue_of_count r hr, mt, ct, m69, c69, m138,
    c138, m31, c31]
  refine ⟨?_, ?_, ?_, ?_⟩
  · have e : (t : ℚ)⁻¹ * (t : ℚ) = 1 := inv_mul_cancel₀ ht
    push_cast
    linear_combination ((r : ℚ) / (12 / 10) * 69 / w.dev.hiResCoef) * e
  · push_cast
    ring
  · push_cast
    ring
  · intro hpos hc
    have hr0 : (0 : ℚ) < (r : ℚ) := by exact_mod_cast hpos
    have hcpos : (0 : ℚ) < w.dev.hiResCoef := by
      rcases hc with h | h <;> rw [h] <;> norm_num
    have hq : (0 : ℚ) < (r : ℚ) / w.dev.hiResCoef := div_pos hr0 hcpos
    constructor
    · have h138 : (r : ℚ) / (12 / 10) * (69 / ((138 : Nat) : ℚ)) / w.dev.hiResCoef =
          (5 / 12) * ((r : ℚ) / w.dev.hiResCoef) := by
        push_cast
        ring
      rw [h138]
      exact (mul_pos (by norm_num) hq).ne'
    · have h31 : (r : ℚ) / (12 / 10) * (69 / ((31 : Nat) : ℚ)) / w.dev.hiResCoef =
          (115 / 62) * ((r : ℚ) / w.dev.hiResCoef) := by
        push_cast
        ring
      have h69 : 2 * ((r : ℚ) / (12 / 10) * (69 / ((69 : Nat) : ℚ)) / w.dev.hiResCoef) =
          (5 / 3) * ((r : ℚ) / w.dev.hiResCoef) := by
        push_cast
        ring
      rw [h31, h69]
      intro heq
      nlinarith

/-- C8 from the freshly constructed state at raw count 256 and register value 138. -/
theorem getLightIntensity_mtreg_scaling_witness :
    (256 ≤ 65535 ∧ 31 ≤ 138 ∧ 138 ≤ 254) ∧
    (getLightIntensity (256 / 256) (256 % 256) (setMtreg 138 new)).1 * ((138 : Nat) : ℚ) =
      (getLightIntensity (256 / 256) (256 % 256) (setMtreg 69 new)).1 * 69 ∧
    (getLightIntensity (256 / 256) (256 % 256) (setMtreg 138 new)).1 =
      (getLightIntensity (256 / 256) (256 % 256) (setMtreg 69 new)).1 / 2 ∧
    (getLightIntensity (256 / 256) (256 % 256) (setMtreg 31 new)).1 =
      (69 / 31) * (getLightIntensity (256 / 256) (256 % 256) (setMtreg 69 new)).1 ∧
    (0 < 256 → (new.dev.hiResCoef = 1 ∨ new.dev.hiResCoef = 2) →
      (getLightIntensity (256 / 256) (256 % 256) (setMtreg 138 new)).1 ≠ 0 ∧
      (getLightIntensity (256 / 256) (256 % 256) (setMtreg 31 new)).1 ≠
        2 * (getLightIntensity (256 / 256) (256 % 256) (setMtreg 69 new)).1) :=
  ⟨by decide, getLightIntensity_mtreg_scaling new 256 138 (by decide) (by decide) (by decide)⟩

/-- C9: `getLightIntensity()` issues one read request for exactly 2 bytes at the configured
address and takes the two bytes off the bus; for received bytes `b0` then `b1` the raw
count it converts is the big-endian value `256*b0 + b1`, which lies in `[0, 65535]`; there
is no other bus traffic, and no driver field and no pin is touched. -/
theorem getLightIntensity_read (w : World) (b0 b1 : Nat) (h0 : b0 < 256) (h1 : b1 < 256) :
    (getLightIntensity b0 b1 w).2.busI2C = w.busI2C ++
      [WireCall.requestFrom (getAddress w) 2, WireCall.receive, WireCall.receive] ∧
    intensityValue b0 b1 = 256 * b0 + b1 ∧
    intensityValue b0 b1 ≤ 65535 ∧
    (getLightIntensity b0 b1 w).1 =
      (((256 * b0 + b1 : Nat) : ℚ) / LUX_ACC_COEF * ((MTREG_DEF_VALUE : ℚ) / w.dev.mtreg)) /
        w.dev.hiResCoef ∧
    (getLightIntensity b0 b1 w).2.dev = w.dev ∧
    (getLightIntensity b0 b1 w).2.pins = w.pins := by
  have hv := intensityValue_bytes b0 b1 h0 h1
  refine ⟨?_, hv, ?_, ?_, rfl, rfl⟩
  · simp [getLightIntensity, getAddress]
  · omega
  · simp only [getLightIntensity, hv]

/-- C9 at the largest byte pair `0xFF`, `0xFF` in the freshly constructed state. -/
theorem getLightIntensity_read_witness :
    ((255 : Nat) < 256 ∧ (255 : Nat) < 256) ∧
    (getLightIntensity 255 255 new).2.busI2C = new.busI2C ++
      [WireCall.requestFrom (getAddress new) 2, WireCall.receive, WireCall.receive] ∧
    intensityValue 255 255 = 256 * 255 + 255 ∧
    intensityValue 255 255 ≤ 65535 ∧
    (getLightIntensity 255 255 new).1 =
      (((256 * 255 + 255 : Nat) : ℚ) / LUX_ACC_COEF *
        ((MTREG_DEF_VALUE : ℚ) / new.dev.mtreg)) / new.dev.hiResCoef ∧
    (getLightIntensity 255 255 new).2.dev = new.dev ∧
    (getLightIntensity 255 255 new).2.pins = new.pins :=
  ⟨by decide, getLightIntensity_read new 255 255 (by decide) (by decide)⟩

/-! ## Address selection -/

/-- C10: for every pin and state, `setAddress(pin, true)` sets the address to `0x5C` and
drives that pin high, `setAddress(pin, false)` sets it to `0x23` and drives the pin low;
`getAddress()` then returns the new address, nothing is sent on the bus, and the mode, the
coefficient and the measurement-time register are unchanged. -/
theorem setAddress_effect (w : World) (pin : Nat) :
    ((setAddress pin true w).dev.address = 0x5C ∧
      getAddress (setAddress pin true w) = 0x5C ∧
      (setAddress pin true w).pins =
        w.pins ++ [PinCall.pinModeOutput pin, PinCall.digitalWrite pin true] ∧
      (setAddress pin true w).busI2C = w.busI2C ∧
      getMode (setAddress pin true w) = getMode w ∧
      (setAddress pin true w).dev.hiResCoef = w.dev.hiResCoef ∧
      (setAddress pin true w).dev.mtreg = w.dev.mtreg) ∧
    ((setAddress pin false w).dev.address = 0x23 ∧
      getAddress (setAddress pin false w) = 0x23 ∧
      (setAddress pin false w).pins =
        w.pins ++ [PinCall.pinModeOutput pin, PinCall.digitalWrite pin false] ∧
      (setAddress pin false w).busI2C = w.busI2C ∧
      getMode (setAddress pin false w) = getMode w ∧
      (setAddress pin false w).dev.hiResCoef = w.dev.hiResCoef ∧
      (setAddress pin false w).dev.mtreg = w.dev.mtreg) := by
  simp [setAddress, getAddress, getMode]

/-! ## Auxiliary facts on sequences of calls -/

/-- What `setMode` does on one of the six opcodes. -/
theorem setMode_of_valid (w : World) (m : Nat)
    (hm : m ∈ ([0x10, 0x11, 0x13, 0x20, 0x21, 0x23] : List Nat)) :
    setMode m w =
      { dev := { address := w.dev.address, currentMode := m, mtreg := w.dev.mtreg,
                 hiResCoef := if m = 0x11 ∨ m = 0x21 then 2 else 1 }
        busI2C := w.busI2C ++ [WireCall.beginTransmission w.dev.address, WireCall.send m,
          WireCall.endTransmission]
        pins := w.pins } := by
  simp only [List.mem_cons, List.mem_singleton, List.mem_nil_iff, or_false] at hm
  rcases hm with h | h | h | h | h | h <;> subst h <;> simp [setMode, writeToBus]

/-- What `setMode` does on any other value. -/
theorem setMode_of_invalid (w : World) (m : Nat)
    (hm : m ∉ ([0x10, 0x11, 0x13, 0x20, 0x21, 0x23] : List Nat)) : setMode m w = w := by
  simp only [List.mem_cons, List.mem_singleton, List.mem_nil_iff, or_false] at hm
  simp only [setMode, BH1750_CONTINUOUS_HIGH_RES_MODE, BH1750_CONTINUOUS_HIGH_RES_MODE_2,
    BH1750_CONTINUOUS_LOW_RES_MODE, BH1750_ONE_TIME_HIGH_RES_MODE,
    BH1750_ONE_TIME_HIGH_RES_MODE_2, BH1750_ONE_TIME_LOW_RES_MODE]
  rw [if_neg hm]

/-- What `setMtreg` does on a value out of range. -/
theorem setMtreg_of_invalid (w : World) (v : Nat) (hv : v < 31 ∨ v > 254) :
    setMtreg v w = w := by
  simp only [setMtreg, if_pos hv]

/-- The invariant only reads the data members. -/
theorem Inv_of_dev_eq (w w' : World) (h : w'.dev = w.dev) (hi : Inv w) : Inv w' := by
  unfold Inv at *
  rw [h]
  exact hi

/-- In a world that satisfies the invariant, setting the current mode again is one bus
write of that mode and changes no data member. -/
theorem setMode_current (w : World) (hi : Inv w) :
    setMode w.dev.currentMode w = writeToBus w.dev.currentMode w := by
  obtain ⟨_, hm, h2, h1, _⟩ := hi
  rw [setMode_of_valid w _ hm]
  by_cases hc : w.dev.currentMode = 0x11 ∨ w.dev.currentMode = 0x21
  · rw [if_pos hc, ← h2 hc]
    rfl
  · rw [if_neg hc, ← h1 hc]
    rfl

/-- The constructed world satisfies the invariant. -/
theorem Inv_new : Inv new := by
  refine ⟨Or.inl rfl, by decide, ?_, ?_, 69, by decide, by decide, rfl⟩
  · intro h
    revert h
    decide
  · intro _
    rfl

/-- `setMode` keeps the invariant. -/
theorem Inv_setMode (m : Nat) (w : World) (hi : Inv w) : Inv (setMode m w) := by
  by_cases hm : m ∈ ([0x10, 0x11, 0x13, 0x20, 0x21, 0x23] : List Nat)
  · rw [setMode_of_valid w m hm]
    obtain ⟨ha, _, _, _, hn⟩ := hi
    refine ⟨ha, hm, ?_, ?_, hn⟩
    · intro hc
      exact if_pos hc
    · intro hc
      exact if_neg hc
  · rw [setMode_of_invalid w m hm]
    exact hi

/-- `setMtreg` keeps the invariant. -/
theorem Inv_setMtreg (v : Nat) (w : World) (hi : Inv w) : Inv (setMtreg v w) := by
  by_cases hv : v < 31 ∨ v > 254
  · rw [setMtreg_of_invalid w v hv]
    exact hi
  · rw [setMtreg_of_valid w v (by omega) (by omega)]
    obtain ⟨ha, hm, h2, h1, _⟩ := hi
    exact ⟨ha, hm, h2, h1, v, by omega, by omega, rfl⟩

/-- `setAddress` keeps the invariant. -/
theorem Inv_setAddress (pin : Nat) (add : Bool) (w : World) (hi : Inv w) :
    Inv (setAddress pin add w) := by
  obtain ⟨_, hm, h2, h1, hn⟩ := hi
  cases add
  · exact ⟨Or.inl rfl, hm, h2, h1, hn⟩
  · exact ⟨Or.inr rfl, hm, h2, h1, hn⟩

/-- Every call keeps the invariant. -/
theorem Inv_step (op : Op) (w : World) (hi : Inv w) : Inv (step op w) := by
  cases op with
  | powerOn => exact Inv_setMode _ _ (Inv_of_dev_eq w _ rfl hi)
  | sleep => exact Inv_of_dev_eq w _ rfl hi
  | reset => exact Inv_of_dev_eq w _ rfl hi
  | wakeUp => exact Inv_setMode _ _ hi
  | wakeUpMode mode => exact Inv_setMode _ _ hi
  | getMtreg => exact hi
  | setMtreg mtreg => exact Inv_setMtreg _ _ hi
  | getMode => exact hi
  | setMode mode => exact Inv_setMode _ _ hi
  | setAddress addPin add => exact Inv_setAddress _ _ _ hi
  | getAddress => exact hi
  | getLightIntensity b0 b1 => exact Inv_of_dev_eq w _ rfl hi

/-- Every sequence of calls keeps the invariant. -/
theorem Inv_run (ops : List Op) : ∀ w : World, Inv w → Inv (run ops w) := by
  induction ops with
  | nil => intro w hi; exact hi
  | cons op ops ih => intro w hi; exact ih (step op w) (Inv_step op w hi)

/-- Every reachable world satisfies the invariant. -/
theorem Inv_of_reachable (w : World) (hw : Reachable w) : Inv w := by
  obtain ⟨ops, rfl⟩ := hw
  exact Inv_run ops new Inv_new

/-- The calls of two sequences of transfers, one after the other. -/
theorem transfers_append (a : Nat) (ts1 ts2 : List Transfer) :
    transfers a (ts1 ++ ts2) = transfers a ts1 ++ transfers a ts2 := by
  induction ts1 with
  | nil => rfl
  | cons t ts ih =>
    show t.calls a ++ transfers a (ts ++ ts2) = (t.calls a ++ transfers a ts) ++ transfers a ts2
    rw [ih, List.append_assoc]

/-- What `writeToBus` adds to the bus is one write transfer to the current address. -/
theorem writeToBus_bus (d : Nat) (w : World) :
    (writeToBus d w).busI2C = w.busI2C ++ transfers w.dev.address [Transfer.write d] := by
  simp [writeToBus, transfers, Transfer.calls]

/-- What `setMode` adds to the bus is at most one write transfer to the current
address. -/
theorem setMode_bus (m : Nat) (w : World) :
    ∃ ts : List Transfer, (setMode m w).busI2C = w.busI2C ++ transfers w.dev.address ts := by
  by_cases hm : m ∈ ([0x10, 0x11, 0x13, 0x20, 0x21, 0x23] : List Nat)
  · exact ⟨[Transfer.write m], by
      rw [setMode_of_valid w m hm]
      simp [transfers, Transfer.calls]⟩
  · exact ⟨[], by
      rw [setMode_of_invalid w m hm]
      simp [transfers]⟩

/-- What `setMtreg` adds to the bus is no or two write transfers to the current
address. -/
theorem setMtreg_bus (v : Nat) (w : World) :
    ∃ ts : List Transfer, (setMtreg v w).busI2C = w.busI2C ++ transfers w.dev.address ts := by
  by_cases hv : v < 31 ∨ v > 254
  · exact ⟨[], by
      rw [setMtreg_of_invalid w v hv]
      simp [transfers]⟩
  · exact ⟨[Transfer.write (0x40 ||| ((v &&& 0xE0) >>> 5)),
        Transfer.write (0x60 ||| (v &&& 0x1F))], by
      rw [setMtreg_of_valid w v (by omega) (by omega)]
      simp [writeToBus, transfers, Transfer.calls]⟩

/-- What one call adds to the bus is a sequence of complete transfers, all to the address
the object holds when the call is made. -/
theorem step_bus (op : Op) (w : World) :
    ∃ ts : List Transfer, (step op w).busI2C = w.busI2C ++ transfers w.dev.address ts := by
  cases op with
  | powerOn =>
    obtain ⟨ts, hts⟩ := setMode_bus w.dev.currentMode (writeToBus BH1750_POWER_ON w)
    refine ⟨Transfer.write BH1750_POWER_ON :: ts, ?_⟩
    show (setMode w.dev.currentMode (writeToBus BH1750_POWER_ON w)).busI2C = _
    rw [hts, writeToBus_bus]
    simp [transfers, writeToBus]
  | sleep => exact ⟨[Transfer.write BH1750_POWER_DOWN], writeToBus_bus _ w⟩
  | reset =>
    refine ⟨[Transfer.write BH1750_POWER_ON, Transfer.write BH1750_RESET], ?_⟩
    simp [step, reset, writeToBus, transfers, Transfer.calls]
  | wakeUp => exact setMode_bus _ w
  | wakeUpMode mode => exact setMode_bus mode w
  | getMtreg => exact ⟨[], by simp [step, transfers]⟩
  | setMtreg mtreg => exact setMtreg_bus mtreg w
  | getMode => exact ⟨[], by simp [step, transfers]⟩
  | setMode mode => exact setMode_bus mode w
  | setAddress addPin add =>
    refine ⟨[], ?_⟩
    cases add <;> simp [step, setAddress, transfers]
  | getAddress => exact ⟨[], by simp [step, transfers]⟩
  | getLightIntensity b0 b1 =>
    refine ⟨[Transfer.read2], ?_⟩
    simp [step, getLightIntensity, transfers, Transfer.calls]

/-- `setMode` leaves the address alone. -/
theorem setMode_address (m : Nat) (w : World) :
    (setMode m w).dev.address = w.dev.address := by
  simp only [setMode]
  split_ifs <;> rfl

/-- `setMtreg` leaves the address, the mode and the coefficient alone. -/
theorem setMtreg_others (v : Nat) (w : World) :
    (setMtreg v w).dev.address = w.dev.address ∧
    (setMtreg v w).dev.currentMode = w.dev.currentMode ∧
    (setMtreg v w).dev.hiResCoef = w.dev.hiResCoef ∧
    (setMtreg v w).pins = w.pins := by
  by_cases hv : v < 31 ∨ v > 254
  · rw [setMtreg_of_invalid w v hv]
    exact ⟨rfl, rfl, rfl, rfl⟩
  · rw [setMtreg_of_valid w v (by omega) (by omega)]
    exact ⟨rfl, rfl, rfl, rfl⟩

/-- Only `setAddress` changes the address. -/
theorem step_address (op : Op) (w : World) (h : isSetAddress op = false) :
    (step op w).dev.address = w.dev.address := by
  cases op with
  | powerOn => exact setMode_address _ _
  | sleep => rfl
  | reset => rfl
  | wakeUp => exact setMode_address _ _
  | wakeUpMode mode => exact setMode_address _ _
  | getMtreg => rfl
  | setMtreg mtreg => exact (setMtreg_others mtreg w).1
  | getMode => rfl
  | setMode mode => exact setMode_address _ _
  | setAddress addPin add => simp [isSetAddress] at h
  | getAddress => rfl
  | getLightIntensity b0 b1 => rfl

/-- What a sequence of calls without `setAddress` adds to the bus is a sequence of
complete transfers, all to the address held at the start. -/
theorem run_bus (ops : List Op) :
    ∀ w : World, (∀ o ∈ ops, isSetAddress o = false) →
      ∃ ts : List Transfer, (run ops w).busI2C = w.busI2C ++ transfers w.dev.address ts := by
  induction ops with
  | nil =>
    intro w _
    exact ⟨[], by simp [run, transfers]⟩
  | cons op ops ih =>
    intro w h
    obtain ⟨ts1, h1⟩ := step_bus op w
    obtain ⟨ts2, h2⟩ := ih (step op w) (fun o ho => h o (List.mem_cons_of_mem op ho))
    have ha := step_address op w (h op (List.mem_cons_self op ops))
    refine ⟨ts1 ++ ts2, ?_⟩
    show (run ops (step op w)).busI2C = _
    rw [h2, h1, ha, transfers_append, List.append_assoc]

set_option maxRecDepth 100000 in
/-- The two bytes of the register packing, for every 8-bit register value: their ranges
and how the value is read back from them. -/
theorem packing_bytes : ∀ v : Nat, v < 256 →
    0x40 ≤ (0x40 ||| ((v &&& 0xE0) >>> 5)) ∧ (0x40 ||| ((v &&& 0xE0) >>> 5)) ≤ 0x47 ∧
    0x60 ≤ (0x60 ||| (v &&& 0x1F)) ∧ (0x60 ||| (v &&& 0x1F)) ≤ 0x7F ∧
    v = ((((0x40 ||| ((v &&& 0xE0) >>> 5)) &&& 0x07) <<< 5) |||
      ((0x60 ||| (v &&& 0x1F)) &&& 0x1F)) := by
  decide

/-- The bus trace after an accepted `setMtreg`. -/
theorem setMtreg_valid_bus (w : World) (v : Nat) (h1 : 31 ≤ v) (h2 : v ≤ 254) :
    (setMtreg v w).busI2C = w.busI2C ++
      [WireCall.beginTransmission w.dev.address,
       WireCall.send (0x40 ||| ((v &&& 0xE0) >>> 5)),
       WireCall.endTransmission,
       WireCall.beginTransmission w.dev.address,
       WireCall.send (0x60 ||| (v &&& 0x1F)),
       WireCall.endTransmission] := by
  rw [setMtreg_of_valid w v h1 h2]
  simp [writeToBus]

/-! ## Power operations -/

/-- C11: in every state, also right after `sleep()`, `reset()` sends exactly two bus
writes, the power-on opcode `0x01` immediately followed by the reset opcode `0x07`, and
leaves every data member (and the pins) unchanged. -/
theorem reset_transmits (w : World) :
    (reset w).busI2C = w.busI2C ++
      [WireCall.beginTransmission (getAddress w), WireCall.send 0x01,
       WireCall.endTransmission,
       WireCall.beginTransmission (getAddress w), WireCall.send 0x07,
       WireCall.endTransmission] ∧
    (reset w).dev = w.dev ∧
    (reset w).pins = w.pins ∧
    (reset (sleep w)).busI2C = (sleep w).busI2C ++
      [WireCall.beginTransmission (getAddress w), WireCall.send 0x01,
       WireCall.endTransmission,
       WireCall.beginTransmission (getAddress w), WireCall.send 0x07,
       WireCall.endTransmission] ∧
    (reset (sleep w)).dev = w.dev := by
  simp [reset, sleep, writeToBus, getAddress]

/-- C12: in every reachable state `powerOn()` sends exactly two bus writes, the power-on
opcode `0x01` followed by the opcode `getMode()` returned before the call; `getMode()`, the
coefficient, the measurement-time register and the address are the same after the call. -/
theorem powerOn_transmits (w : World) (hw : Reachable w) :
    (powerOn w).busI2C = w.busI2C ++
      [WireCall.beginTransmission (getAddress w), WireCall.send 0x01,
       WireCall.endTransmission,
       WireCall.beginTransmission (getAddress w), WireCall.send (getMode w),
       WireCall.endTransmission] ∧
    getMode (powerOn w) = getMode w ∧
    (powerOn w).dev.hiResCoef = w.dev.hiResCoef ∧
    (powerOn w).dev.mtreg = w.dev.mtreg ∧
    getMtreg (powerOn w) = getMtreg w ∧
    getAddress (powerOn w) = getAddress w := by
  have hi : Inv (writeToBus BH1750_POWER_ON w) :=
    Inv_of_dev_eq w _ rfl (Inv_of_reachable w hw)
  have hp : powerOn w = writeToBus w.dev.currentMode (writeToBus BH1750_POWER_ON w) :=
    setMode_current (writeToBus BH1750_POWER_ON w) hi
  rw [hp]
  refine ⟨?_, rfl, rfl, rfl, rfl, rfl⟩
  simp [writeToBus, getAddress, getMode]

/-- C12 after `setMode(0x21)`, `setAddress(4, true)` and `sleep()`. -/
theorem powerOn_transmits_witness :
    Reachable (run [Op.setMode 0x21, Op.setAddress 4 true, Op.sleep] new) ∧
    (powerOn (run [Op.setMode 0x21, Op.setAddress 4 true, Op.sleep] new)).busI2C =
      (run [Op.setMode 0x21, Op.setAddress 4 true, Op.sleep] new).busI2C ++
      [WireCall.beginTransmission
         (getAddress (run [Op.setMode 0x21, Op.setAddress 4 true, Op.sleep] new)),
       WireCall.send 0x01, WireCall.endTransmission,
       WireCall.beginTransmission
         (getAddress (run [Op.setMode 0x21, Op.setAddress 4 true, Op.sleep] new)),
       WireCall.send (getMode (run [Op.setMode 0x21, Op.setAddress 4 true, Op.sleep] new)),
       WireCall.endTransmission] ∧
    getMode (powerOn (run [Op.setMode 0x21, Op.setAddress 4 true, Op.sleep] new)) =
      getMode (run [Op.setMode 0x21, Op.setAddress 4 true, Op.sleep] new) ∧
    (powerOn (run [Op.setMode 0x21, Op.setAddress 4 true, Op.sleep] new)).dev.hiResCoef =
      (run [Op.setMode 0x21, Op.setAddress 4 true, Op.sleep] new).dev.hiResCoef ∧
    (powerOn (run [Op.setMode 0x21, Op.setAddress 4 true, Op.sleep] new)).dev.mtreg =
      (run [Op.setMode 0x21, Op.setAddress 4 true, Op.sleep] new).dev.mtreg ∧
    getMtreg (powerOn (run [Op.setMode 0x21, Op.setAddress 4 true, Op.sleep] new)) =
      getMtreg (run [Op.setMode 0x21, Op.setAddress 4 true, Op.sleep] new) ∧
    getAddress (powerOn (run [Op.setMode 0x21, Op.setAddress 4 true, Op.sleep] new)) =
      getAddress (run [Op.setMode 0x21, Op.setAddress 4 true, Op.sleep] new) :=
  ⟨⟨[Op.setMode 0x21, Op.setAddress 4 true, Op.sleep], rfl⟩,
   powerOn_transmits (run [Op.setMode 0x21, Op.setAddress 4 true, Op.sleep] new)
     ⟨[Op.setMode 0x21, Op.setAddress 4 true, Op.sleep], rfl⟩⟩

/-! ## Invariants of the reachable states -/

/-- C13: in every state reachable from construction by any sequence of calls with any
arguments, the stored measurement-time register is an integer of `[31,254]`, and it is
what `getMtreg()` returns. -/
theorem reachable_mtreg_range (w : World) (hw : Reachable w) :
    ∃ n : Nat, 31 ≤ n ∧ n ≤ 254 ∧ w.dev.mtreg = (n : ℚ) ∧ getMtreg w = n := by
  obtain ⟨_, _, _, _, n, h1, h2, hn⟩ := Inv_of_reachable w hw
  refine ⟨n, h1, h2, hn, ?_⟩
  simp only [getMtreg, hn, floor_natCast_rat, Int.toNat_ofNat]
  omega

/-- C13 after an accepted, a rejected and a second rejected `setMtreg`. -/
theorem reachable_mtreg_range_witness :
    Reachable (run [Op.setMtreg 200, Op.setMtreg 255, Op.setMtreg 7] new) ∧
    ∃ n : Nat, 31 ≤ n ∧ n ≤ 254 ∧
      (run [Op.setMtreg 200, Op.setMtreg 255, Op.setMtreg 7] new).dev.mtreg = (n : ℚ) ∧
      getMtreg (run [Op.setMtreg 200, Op.setMtreg 255, Op.setMtreg 7] new) = n :=
  ⟨⟨[Op.setMtreg 200, Op.setMtreg 255, Op.setMtreg 7], rfl⟩,
   reachable_mtreg_range (run [Op.setMtreg 200, Op.setMtreg 255, Op.setMtreg 7] new)
     ⟨[Op.setMtreg 200, Op.setMtreg 255, Op.setMtreg 7], rfl⟩⟩

/-- C14: in every state reachable from construction by any sequence of calls with any
arguments, `currentMode` is one of the six valid opcodes and the coefficient goes with it:
2 if the mode is `0x11` or `0x21`, and 1 otherwise. -/
theorem reachable_mode_coef (w : World) (hw : Reachable w) :
    getMode w ∈ ([0x10, 0x11, 0x13, 0x20, 0x21, 0x23] : List Nat) ∧
    ((getMode w = 0x11 ∨ getMode w = 0x21) → w.dev.hiResCoef = 2) ∧
    (¬ (getMode w = 0x11 ∨ getMode w = 0x21) → w.dev.hiResCoef = 1) := by
  obtain ⟨_, hm, h2, h1, _⟩ := Inv_of_reachable w hw
  exact ⟨hm, h2, h1⟩

/-- C14 after an accepted `setMode(0x11)`, a rejected `setMode(0x12)` and `powerOn()`. -/
theorem reachable_mode_coef_witness :
    Reachable (run [Op.setMode 0x11, Op.setMode 0x12, Op.powerOn] new) ∧
    getMode (run [Op.setMode 0x11, Op.setMode 0x12, Op.powerOn] new) ∈
      ([0x10, 0x11, 0x13, 0x20, 0x21, 0x23] : List Nat) ∧
    ((getMode (run [Op.setMode 0x11, Op.setMode 0x12, Op.powerOn] new) = 0x11 ∨
      getMode (run [Op.setMode 0x11, Op.setMode 0x12, Op.powerOn] new) = 0x21) →
      (run [Op.setMode 0x11, Op.setMode 0x12, Op.powerOn] new).dev.hiResCoef = 2) ∧
    (¬ (getMode (run [Op.setMode 0x11, Op.setMode 0x12, Op.powerOn] new) = 0x11 ∨
      getMode (run [Op.setMode 0x11, Op.setMode 0x12, Op.powerOn] new) = 0x21) →
      (run [Op.setMode 0x11, Op.setMode 0x12, Op.powerOn] new).dev.hiResCoef = 1) :=
  ⟨⟨[Op.setMode 0x11, Op.setMode 0x12, Op.powerOn], rfl⟩,
   reachable_mode_coef (run [Op.setMode 0x11, Op.setMode 0x12, Op.powerOn] new)
     ⟨[Op.setMode 0x11, Op.setMode 0x12, Op.powerOn], rfl⟩⟩

/-- C15: construction gives address `0x23`, mode `0x10`, measurement-time register 69 and
coefficient 1, and makes no bus call (and no pin call). -/
theorem constructor_defaults :
    new.dev.address = 0x23 ∧ getAddress new = 0x23 ∧
    new.dev.currentMode = 0x10 ∧ getMode new = 0x10 ∧
    new.dev.mtreg = 69 ∧ getMtreg new = 69 ∧
    new.dev.hiResCoef = 1 ∧
    new.busI2C = [] ∧ new.pins = [] := by
  refine ⟨rfl, rfl, rfl, rfl, ?_, ?_, rfl, rfl, rfl⟩
  · simp [new]
  · simp only [getMtreg, new, floor_natCast_rat, Int.toNat_ofNat]
    rfl

/-! ## Waking up -/

/-- C16: in every reachable state `wakeUp()` sends exactly one bus write, the opcode of
the current mode, which is never the power-on opcode `0x01`, and leaves the data members
(and the pins) unchanged; and for every mode value `m` and every state, `wakeUp(m)` gives
the same state and the same bus trace as `setMode(m)`. -/
theorem wakeUp_reapplies (w : World) (hw : Reachable w) (m : Nat) (w' : World) :
    (wakeUp w).busI2C = w.busI2C ++
      [WireCall.beginTransmission (getAddress w), WireCall.send (getMode w),
       WireCall.endTransmission] ∧
    getMode w ≠ 0x01 ∧
    WireCall.send 0x01 ∉
      [WireCall.beginTransmission (getAddress w), WireCall.send (getMode w),
       WireCall.endTransmission] ∧
    (wakeUp w).dev = w.dev ∧
    (wakeUp w).pins = w.pins ∧
    wakeUpMode m w' = setMode m w' := by
  have hi := Inv_of_reachable w hw
  have hk : wakeUp w = writeToBus w.dev.currentMode w := setMode_current w hi
  have hne : getMode w ≠ 0x01 := by
    obtain ⟨_, hm, _⟩ := hi
    simp only [List.mem_cons, List.mem_singleton, List.mem_nil_iff, or_false] at hm
    simp only [getMode]
    omega
  rw [hk]
  refine ⟨rfl, hne, ?_, rfl, rfl, rfl⟩
  simp only [List.mem_cons, List.mem_singleton, List.mem_nil_iff, or_false, WireCall.send.injEq,
    reduceCtorEq, false_or, not_or]
  exact fun h => hne h.symm

/-- C16 after `setMode(0x13)` and `sleep()`, with `wakeUp(0x20)` from construction. -/
theorem wakeUp_reapplies_witness :
    Reachable (run [Op.setMode 0x13, Op.sleep] new) ∧
    (wakeUp (run [Op.setMode 0x13, Op.sleep] new)).busI2C =
      (run [Op.setMode 0x13, Op.sleep] new).busI2C ++
      [WireCall.beginTransmission (getAddress (run [Op.setMode 0x13, Op.sleep] new)),
       WireCall.send (getMode (run [Op.setMode 0x13, Op.sleep] new)),
       WireCall.endTransmission] ∧
    getMode (run [Op.setMode 0x13, Op.sleep] new) ≠ 0x01 ∧
    WireCall.send 0x01 ∉
      [WireCall.beginTransmission (getAddress (run [Op.setMode 0x13, Op.sleep] new)),
       WireCall.send (getMode (run [Op.setMode 0x13, Op.sleep] new)),
       WireCall.endTransmission] ∧
    (wakeUp (run [Op.setMode 0x13, Op.sleep] new)).dev =
      (run [Op.setMode 0x13, Op.sleep] new).dev ∧
    (wakeUp (run [Op.setMode 0x13, Op.sleep] new)).pins =
      (run [Op.setMode 0x13, Op.sleep] new).pins ∧
    wakeUpMode 0x20 new = setMode 0x20 new :=
  ⟨⟨[Op.setMode 0x13, Op.sleep], rfl⟩,
   wakeUp_reapplies (run [Op.setMode 0x13, Op.sleep] new) ⟨[Op.setMode 0x13, Op.sleep], rfl⟩
     0x20 new⟩

/-- C18: what any call adds to the bus is a sequence of complete transfers (write
transmissions of exactly one data byte, two-byte read requests), every one addressed to
what `getAddress()` returns when the call is made; after `setAddress(pin, true)` all
transfers of the following calls go to `0x5C`, after `setAddress(pin, false)` to `0x23`,
until `setAddress` is called again; and in every reachable state the address is `0x23` or
`0x5C`. -/
theorem bus_addressing (w : World) (hw : Reachable w) :
    (∀ (w' : World) (op : Op), ∃ ts : List Transfer,
      (step op w').busI2C = w'.busI2C ++ transfers (getAddress w') ts) ∧
    (∀ (w' : World) (pin : Nat) (ops : List Op), (∀ o ∈ ops, isSetAddress o = false) →
      (getAddress (setAddress pin true w') = 0x5C ∧
        ∃ ts : List Transfer,
          (run ops (setAddress pin true w')).busI2C = w'.busI2C ++ transfers 0x5C ts) ∧
      (getAddress (setAddress pin false w') = 0x23 ∧
        ∃ ts : List Transfer,
          (run ops (setAddress pin false w')).busI2C = w'.busI2C ++ transfers 0x23 ts)) ∧
    (getAddress w = 0x23 ∨ getAddress w = 0x5C) := by
  refine ⟨fun w' op => step_bus op w', ?_, (Inv_of_reachable w hw).1⟩
  intro w' pin ops hops
  exact ⟨⟨rfl, run_bus ops (setAddress pin true w') hops⟩,
    ⟨rfl, run_bus ops (setAddress pin false w') hops⟩⟩

/-- C18 in the state reached by `setAddress(4, true)` and `setMode(0x20)`. -/
theorem bus_addressing_witness :
    Reachable (run [Op.setAddress 4 true, Op.setMode 0x20] new) ∧
    (∀ (w' : World) (op : Op), ∃ ts : List Transfer,
      (step op w').busI2C = w'.busI2C ++ transfers (getAddress w') ts) ∧
    (∀ (w' : World) (pin : Nat) (ops : List Op), (∀ o ∈ ops, isSetAddress o = false) →
      (getAddress (setAddress pin true w') = 0x5C ∧
        ∃ ts : List Transfer,
          (run ops (setAddress pin true w')).busI2C = w'.busI2C ++ transfers 0x5C ts) ∧
      (getAddress (setAddress pin false w') = 0x23 ∧
        ∃ ts : List Transfer,
          (run ops (setAddress pin false w')).busI2C = w'.busI2C ++ transfers 0x23 ts)) ∧
    (getAddress (run [Op.setAddress 4 true, Op.setMode 0x20] new) = 0x23 ∨
      getAddress (run [Op.setAddress 4 true, Op.setMode 0x20] new) = 0x5C) :=
  ⟨⟨[Op.setAddress 4 true, Op.setMode 0x20], rfl⟩,
   bus_addressing (run [Op.setAddress 4 true, Op.setMode 0x20] new)
     ⟨[Op.setAddress 4 true, Op.setMode 0x20], rfl⟩⟩

/-- C19: the register packing is lossless: for every `v` of `[31,254]` the two bytes `h`
and `l` that `setMtreg(v)` sends satisfy `0x40 ≤ h ≤ 0x47`, `0x60 ≤ l ≤ 0x7F` and
`v = ((h & 0x07) << 5) | (l & 0x1F)`, neither is a power, reset or mode opcode, and
another valid value `v'` that makes `setMtreg` send the same bytes is equal to `v`. -/
theorem mtreg_packing_lossless (w : World) (v v' : Nat) (h1 : 31 ≤ v) (h2 : v ≤ 254)
    (h1' : 31 ≤ v') (h2' : v' ≤ 254) :
    (∃ h l : Nat,
      (setMtreg v w).busI2C = w.busI2C ++
        [WireCall.beginTransmission (getAddress w), WireCall.send h,
         WireCall.endTransmission,
         WireCall.beginTransmission (getAddress w), WireCall.send l,
         WireCall.endTransmission] ∧
      0x40 ≤ h ∧ h ≤ 0x47 ∧ 0x60 ≤ l ∧ l ≤ 0x7F ∧
      v = (((h &&& 0x07) <<< 5) ||| (l &&& 0x1F)) ∧
      h ∉ ([0x00, 0x01, 0x07, 0x10, 0x11, 0x13, 0x20, 0x21, 0x23] : List Nat) ∧
      l ∉ ([0x00, 0x01, 0x07, 0x10, 0x11, 0x13, 0x20, 0x21, 0x23] : List Nat)) ∧
    ((setMtreg v' w).busI2C = (setMtreg v w).busI2C → v' = v) := by
  obtain ⟨a1, a2, a3, a4, a5⟩ := packing_bytes v (by omega)
  obtain ⟨_, _, _, _, a5'⟩ := packing_bytes v' (by omega)
  constructor
  · refine ⟨0x40 ||| ((v &&& 0xE0) >>> 5), 0x60 ||| (v &&& 0x1F),
      setMtreg_valid_bus w v h1 h2, a1, a2, a3, a4, a5, ?_, ?_⟩
    · simp only [List.mem_cons, List.mem_singleton, List.mem_nil_iff, or_false]
      omega
    · simp only [List.mem_cons, List.mem_singleton, List.mem_nil_iff, or_false]
      omega
  · intro heq
    rw [setMtreg_valid_bus w v h1 h2, setMtreg_valid_bus w v' h1' h2'] at heq
    have hl := List.append_cancel_left heq
    simp only [List.cons.injEq, WireCall.send.injEq, true_and, and_true] at hl
    obtain ⟨hh, hl⟩ := hl
    rw [a5', a5, hh, hl]

/-- C19 at `v = 100` and `v' = 69` from construction. -/
theorem mtreg_packing_lossless_witness :
    (31 ≤ 100 ∧ 100 ≤ 254 ∧ 31 ≤ 69 ∧ 69 ≤ 254) ∧
    (∃ h l : Nat,
      (setMtreg 100 new).busI2C = new.busI2C ++
        [WireCall.beginTransmission (getAddress new), WireCall.send h,
         WireCall.endTransmission,
         WireCall.beginTransmission (getAddress new), WireCall.send l,
         WireCall.endTransmission] ∧
      0x40 ≤ h ∧ h ≤ 0x47 ∧ 0x60 ≤ l ∧ l ≤ 0x7F ∧
      100 = (((h &&& 0x07) <<< 5) ||| (l &&& 0x1F)) ∧
      h ∉ ([0x00, 0x01, 0x07, 0x10, 0x11, 0x13, 0x20, 0x21, 0x23] : List Nat) ∧
      l ∉ ([0x00, 0x01, 0x07, 0x10, 0x11, 0x13, 0x20, 0x21, 0x23] : List Nat)) ∧
    ((setMtreg 69 new).busI2C = (setMtreg 100 new).busI2C → 69 = 100) :=
  ⟨by decide,
   mtreg_packing_lossless new 100 69 (by decide) (by decide) (by decide) (by decide)⟩

/-- C20: each setter changes only its own fields: for every state and argument `setMtreg`
leaves the mode, the coefficient and the address unchanged and `setMode` leaves the
measurement-time register and the address unchanged; `sleep()` sends exactly the single
power-down opcode `0x00` and leaves every field unchanged, so that after `sleep()` a
`wakeUp()` or a `powerOn()` sends the valid mode `m'` that was set before sleeping. -/
theorem setters_frame (w : World) (v m m' : Nat)
    (hm' : m' ∈ ([0x10, 0x11, 0x13, 0x20, 0x21, 0x23] : List Nat)) :
    (getMode (setMtreg v w) = getMode w ∧
      (setMtreg v w).dev.hiResCoef = w.dev.hiResCoef ∧
      getAddress (setMtreg v w) = getAddress w) ∧
    ((setMode m w).dev.mtreg = w.dev.mtreg ∧
      getMtreg (setMode m w) = getMtreg w ∧
      getAddress (setMode m w) = getAddress w) ∧
    ((sleep w).busI2C = w.busI2C ++
        [WireCall.beginTransmission (getAddress w), WireCall.send 0x00,
         WireCall.endTransmission] ∧
      (sleep w).dev = w.dev ∧
      (sleep w).pins = w.pins) ∧
    (getMode (sleep (setMode m' w)) = m' ∧
      (wakeUp (sleep (setMode m' w))).busI2C = (sleep (setMode m' w)).busI2C ++
        [WireCall.beginTransmission (getAddress w), WireCall.send m',
         WireCall.endTransmission] ∧
      (powerOn (sleep (setMode m' w))).busI2C = (sleep (setMode m' w)).busI2C ++
        [WireCall.beginTransmission (getAddress w), WireCall.send 0x01,
         WireCall.endTransmission,
         WireCall.beginTransmission (getAddress w), WireCall.send m',
         WireCall.endTransmission]) := by
  obtain ⟨s1, s2, s3, _⟩ := setMtreg_others v w
  refine ⟨⟨s2, s3, s1⟩, ⟨setMode_mtreg m w, ?_, setMode_address m w⟩, ⟨rfl, rfl, rfl⟩, ?_⟩
  · simp only [getMtreg, setMode_mtreg]
  · have hs : setMode m' w = _ := setMode_of_valid w m' hm'
    have hk : wakeUp (sleep (setMode m' w)) = _ :=
      setMode_of_valid (sleep (setMode m' w)) (sleep (setMode m' w)).dev.currentMode
        (by rw [hs]; exact hm')
    have hp : powerOn (sleep (setMode m' w)) = _ :=
      setMode_of_valid (writeToBus BH1750_POWER_ON (sleep (setMode m' w)))
        (sleep (setMode m' w)).dev.currentMode (by rw [hs]; exact hm')
    rw [hp, hk, hs]
    simp [sleep, writeToBus, getMode, getAddress]

/-- C20 from construction with `setMtreg(100)`, the rejected `setMode(0x12)` and the
mode `0x21` set before sleeping. -/
theorem setters_frame_witness :
    0x21 ∈ ([0x10, 0x11, 0x13, 0x20, 0x21, 0x23] : List Nat) ∧
    (getMode (setMtreg 100 new) = getMode new ∧
      (setMtreg 100 new).dev.hiResCoef = new.dev.hiResCoef ∧
      getAddress (setMtreg 100 new) = getAddress new) ∧
    ((setMode 0x12 new).dev.mtreg = new.dev.mtreg ∧
      getMtreg (setMode 0x12 new) = getMtreg new ∧
      getAddress (setMode 0x12 new) = getAddress new) ∧
    ((sleep new).busI2C = new.busI2C ++
        [WireCall.beginTransmission (getAddress new), WireCall.send 0x00,
         WireCall.endTransmission] ∧
      (sleep new).dev = new.dev ∧
      (sleep new).pins = new.pins) ∧
    (getMode (sleep (setMode 0x21 new)) = 0x21 ∧
      (wakeUp (sleep (setMode 0x21 new))).busI2C = (sleep (setMode 0x21 new)).busI2C ++
        [WireCall.beginTransmission (getAddress new), WireCall.send 0x21,
         WireCall.endTransmission] ∧
      (powerOn (sleep (setMode 0x21 new))).busI2C = (sleep (setMode 0x21 new)).busI2C ++
        [WireCall.beginTransmission (getAddress new), WireCall.send 0x01,
         WireCall.endTransmission,
         WireCall.beginTransmission (getAddress new), WireCall.send 0x21,
         WireCall.endTransmission]) :=
  ⟨by decide, setters_frame new 100 0x12 0x21 (by decide)⟩

end BH1750FVI
